import Mathlib

/-!
Shallow embedding of `gitfs.py` (a read-only FUSE filesystem over a git
repository) and verification of its specification claims.

Paths and reference names are Python strings, modelled as `List Char`.
Blob contents are byte sequences, modelled as `List Nat`.
Python exceptions are modelled with an explicit error type: `FuseOSError`
values map to `ENOENT` / `EACCES`, while exceptions that the source does
not catch (`KeyError`, `TypeError`, `IndexError`, `AttributeError`) get
their own constructors so that uncaught propagation stays observable.
-/

/-- Python strings (paths, reference names, entry names). -/
abbrev Str := List Char

/-- Convenience: a Lean string literal as a `Str`. -/
def str (s : String) : Str := s.data

/-- Error outcomes: the two `FuseOSError` kinds raised by the source, plus
the Python exception kinds that can escape uncaught. -/
inductive PyErr where
  | ENOENT
  | EACCES
  | keyError
  | typeError
  | indexError
  | attributeError
  deriving DecidableEq, Repr

/-- The `Stat` namedtuple of `gitfs.py` (field values as naturals). -/
structure Stat where
  st_mode : Nat
  st_ino : Nat
  st_dev : Nat
  st_nlink : Nat
  st_uid : Nat
  st_gid : Nat
  st_size : Nat
  st_atime : Nat
  st_mtime : Nat
  st_ctime : Nat
  deriving DecidableEq, Repr

/-- `x & ~0222` of Python on non-negative ints: keep the bits of `x` that
are not in `0o222`.  `Nat` has no complement, but bit by bit
`a && (a ^^ b) = a && !b`, so `x &&& (x ^^^ 0o222)` is exactly `x & ~0o222`. -/
def clearWrite (x : Nat) : Nat := x &&& (x ^^^ 0o222)

/-- `copy_stat(st, **kwargs)` from the source: apply the keyword overrides
(`st_mode` and/or `st_size`, the only ones call sites pass), then zero the
inode and clear the write bits of the resulting mode. -/
def copy_stat (st : Stat) (kw_st_mode : Option Nat) (kw_st_size : Option Nat) : Stat :=
  let result := { st with
    st_mode := kw_st_mode.getD st.st_mode,
    st_size := kw_st_size.getD st.st_size }
  { result with
    st_ino := 0,
    st_mode := clearWrite result.st_mode }

/-- A git object reachable from a commit: a tree of named entries or a
blob of bytes.  An entry is `(name, filemode, object)`; the object stands
for what `entry.to_object()` / `repo[entry.oid]` dereferences to. -/
inductive GitObj where
  | tree (entries : List (Str × Nat × GitObj))
  | blob (data : List Nat)

/-- Entry name (`entry.name`). -/
def ename (e : Str × Nat × GitObj) : Str := e.1

/-- Entry mode (`entry.filemode`). -/
def emode (e : Str × Nat × GitObj) : Nat := e.2.1

/-- Entry target object (`entry.to_object()` / `repo[entry.oid]`). -/
def eobj (e : Str × Nat × GitObj) : GitObj := e.2.2

/-- `stat.S_IFDIR`. -/
def S_IFDIR : Nat := 0o040000

/-- `os.O_RDONLY` (0 on POSIX). -/
def O_RDONLY : Nat := 0

/-- `os.O_WRONLY`. -/
def O_WRONLY : Nat := 1

/-- A tree entry: `(name, filemode, object)`. -/
abbrev Entry := Str × Nat × GitObj

/-- Componentwise decidable equality on `Except` results, so concrete
outcomes can be settled by `decide`. -/
instance {ε α : Type} [DecidableEq ε] [DecidableEq α] : DecidableEq (Except ε α)
  | Except.ok a, Except.ok b =>
    if h : a = b then isTrue (by rw [h])
    else isFalse (fun hh => h (Except.ok.inj hh))
  | Except.ok _, Except.error _ => isFalse (fun hh => Except.noConfusion hh)
  | Except.error _, Except.ok _ => isFalse (fun hh => Except.noConfusion hh)
  | Except.error e, Except.error f =>
    if h : e = f then isTrue (by rw [h])
    else isFalse (fun hh => h (Except.error.inj hh))

/-- `git_tree_to_direntries(tree)`: the entry names, in tree order.
Iterating a non-tree object would raise `TypeError` in Python, which
nothing in the source catches. -/
def git_tree_to_direntries : GitObj → Except PyErr (List Str)
  | GitObj.tree es => .ok (es.map ename)
  | GitObj.blob _ => .error .typeError

/-- The `reduce` inside `git_tree_find`, advancing through sub-trees along
the intermediate path parts.  The lambda is
`t[part].to_object() if t is not None else None`; the accumulator starts
at the root tree and the lambda raises before it could ever return `None`,
so the `None` branch is dead: a name missing from a tree raises `KeyError`
and indexing into a blob raises `TypeError`, and both escape the `reduce`
uncaught (the `try` in `git_tree_find` wraps only the final lookup). -/
def descend : GitObj → List Str → Except PyErr GitObj
  | t, [] => .ok t
  | GitObj.blob _, _ :: _ => .error .typeError
  | GitObj.tree es, p :: ps =>
    match es.find? (fun e => ename e == p) with
    | none => .error .keyError
    | some e => descend (eobj e) ps

/-- `git_tree_find(tree, path)`: split on `/`, reduce over `parts[:-1]`,
then look up `parts[-1]` in the result inside a
`try ... except (TypeError, KeyError): raise FuseOSError(ENOENT)`.
`split` always returns at least one part, so `parts[-1]` is total. -/
def git_tree_find (tree : GitObj) (path : Str) : Except PyErr Entry :=
  let parts := path.splitOn '/'
  match descend tree parts.dropLast with
  | .error e => .error e
  | .ok t =>
    match t with
    | GitObj.blob _ => .error .ENOENT
    | GitObj.tree es =>
      match es.find? (fun e => ename e == parts.getLastD []) with
      | none => .error .ENOENT
      | some e => .ok e

/-- The external repository as `gitfs.py` sees it: the raw reference list
(`listall_references()`), the map from fully qualified reference names to
the root tree of the commit they point at (`lookup_reference` composed
with `repo[ref.oid]` and `.tree`), and `os.lstat(self.repo.path)`. -/
structure Repo where
  all_refs : List Str
  commits : List (Str × GitObj)
  repo_stat : Stat

namespace GitFS

/-- `GitFS.refs`: references starting with `refs/`, with the leading
`refs` (4 characters) stripped. -/
def refs (repo : Repo) : List Str :=
  (repo.all_refs.filter (fun r => (str "refs/").isPrefixOf r)).map (fun r => r.drop 4)

/-- `GitFS.get_parent_ref` over a reference list: the refs `r` with
`path.startswith(r + '/')`; `ENOENT` unless exactly one matches. -/
def get_parent_ref (refs : List Str) (path : Str) : Except PyErr Str :=
  let matched := refs.filter (fun r => (r ++ str "/").isPrefixOf path)
  if matched.length ≠ 1 then .error .ENOENT
  else .ok (matched.headD [])

/-- `GitFS.get_child_refs`: refs `r` with `r.startswith(path)` (raw string
prefix, no separator required). -/
def get_child_refs (refs : List Str) (path : Str) : List Str :=
  refs.filter (fun r => path.isPrefixOf r)

/-- Python `s.split(sep, maxsplit)` on character lists. -/
def pySplitMax (sep : Char) : Nat → Str → List Str
  | 0, s => [s]
  | m + 1, s =>
    let pre := s.takeWhile (fun c => c ≠ sep)
    let post := s.dropWhile (fun c => c ≠ sep)
    match post with
    | [] => [s]
    | _ :: rest => pre :: pySplitMax sep m rest

/-- Python list indexing: `IndexError` when out of range. -/
def pyIndex (xs : List α) (i : Nat) : Except PyErr α :=
  match xs[i]? with
  | some x => .ok x
  | none => .error .indexError

/-- `GitFS.get_path_children`: for each child ref longer than the path,
take element `[1]` of `r[path_len:].split('/', 2)` (an out-of-range index
raises `IndexError`, uncaught); then `list(frozenset(...))`.  A Python
`frozenset` iterates in an unspecified order; `eraseDups` (keep first
occurrences) is one concrete order, and claims compare memberships. -/
def get_path_children (refs : List Str) (path : Str) : Except PyErr (List Str) :=
  let path_len := if path = str "/" then 0 else path.length
  let children := get_child_refs refs path
  match (children.filter (fun r => decide (path_len < r.length))).mapM
      (fun r => pyIndex (pySplitMax '/' 2 (r.drop path_len)) 1) with
  | .error e => .error e
  | .ok names => .ok names.eraseDups

/-- `GitFS.get_reference_commit`: `lookup_reference('refs' + ref_name)`
(pygit2 raises `KeyError` when absent, which the source does not catch),
then the commit's root tree. -/
def get_reference_commit (repo : Repo) (ref_name : Str) : Except PyErr GitObj :=
  match repo.commits.find? (fun c => c.1 == str "refs" ++ ref_name) with
  | some c => .ok c.2
  | none => .error .keyError

/-- `GitFS.getattr`. -/
def getattr (repo : Repo) (path : Str) : Except PyErr Stat :=
  if (str "/.").isPrefixOf path then .error .ENOENT
  else
    let default_stat := copy_stat repo.repo_stat none none
    match get_child_refs (refs repo) path with
    | _ :: _ => .ok default_stat
    | [] =>
      match get_parent_ref (refs repo) path with
      | .error e => .error e
      | .ok ref =>
        match get_reference_commit repo ref with
        | .error e => .error e
        | .ok tree =>
          match git_tree_find tree (path.drop (ref.length + 1)) with
          | .error e => .error e
          | .ok entry =>
            if emode entry &&& S_IFDIR = S_IFDIR then .ok default_stat
            else
              match eobj entry with
              | GitObj.tree _ => .error .attributeError
              | GitObj.blob d =>
                .ok (copy_stat repo.repo_stat (some (emode entry)) (some d.length))

/-- `GitFS.readdir`.  (`blob.data` on a non-blob would raise
`AttributeError`; iterating a blob as a tree raises `TypeError`.) -/
def readdir (repo : Repo) (path : Str) : Except PyErr (List Str) :=
  match get_path_children (refs repo) path with
  | .error e => .error e
  | .ok children =>
    match children with
    | _ :: _ => .ok children
    | [] =>
      if path ∈ refs repo then
        match get_reference_commit repo path with
        | .error e => .error e
        | .ok path_tree => git_tree_to_direntries path_tree
      else
        match get_parent_ref (refs repo) path with
        | .error e => .error e
        | .ok ref =>
          match get_reference_commit repo ref with
          | .error e => .error e
          | .ok tree =>
            match git_tree_find tree (path.drop (ref.length + 1)) with
            | .error e => .error e
            | .ok entry =>
              if emode entry &&& S_IFDIR = S_IFDIR then
                git_tree_to_direntries (eobj entry)
              else .ok []

/-- `GitFS.open`: the hidden-path check, then
`if flags & os.O_RDONLY != os.O_RDONLY: raise FuseOSError(EACCES)`,
else return handle `0`.  (`open` is a Lean keyword, hence `open_op`.) -/
def open_op (path : Str) (flags : Nat) : Except PyErr Nat :=
  if (str "/.").isPrefixOf path then .error .ENOENT
  else if flags &&& O_RDONLY ≠ O_RDONLY then .error .EACCES
  else .ok 0

/-- `GitFS.read`: resolve to an entry, `entry.to_object()`, then slice its
`.data` (a non-blob object has no `.data`: `AttributeError`, uncaught). -/
def read (repo : Repo) (path : Str) (size offset : Nat) : Except PyErr (List Nat) :=
  if (str "/.").isPrefixOf path then .error .ENOENT
  else
    match get_parent_ref (refs repo) path with
    | .error e => .error e
    | .ok ref =>
      match get_reference_commit repo ref with
      | .error e => .error e
      | .ok tree =>
        match git_tree_find tree (path.drop (ref.length + 1)) with
        | .error e => .error e
        | .ok entry =>
          match eobj entry with
          | GitObj.tree _ => .error .attributeError
          | GitObj.blob d =>
            if offset = 0 ∧ d.length ≤ size then .ok d
            else .ok ((d.drop offset).take size)

end GitFS

/-- Modelled from the spec (used only to state the spec's recipe for
comparison): the "first remaining segment" after splitting `s` on the
separator — the first nonempty part of the split, `none` when no segment
remains. -/
def firstNonemptySeg (s : Str) : Option Str :=
  match s.dropWhile (fun c => c = '/') with
  | [] => none
  | t => some (t.takeWhile (fun c => c ≠ '/'))

/-- Modelled from the spec: `direct_children(path)` — for each reference
whose name has `path` as a raw string prefix, strip the `path` prefix,
split the remainder on the separator, take the first remaining segment;
deduplicate.  (A list standing for a set; claims compare contents.) -/
def specDirectChildren (refs : List Str) (path : Str) : List Str :=
  ((refs.filter (fun r => path.isPrefixOf r)).filterMap
    (fun r => firstNonemptySeg (r.drop path.length))).eraseDups

/-- A directory stat template for the repo storage path (as from
`os.lstat`): mode `0o040755`, a nonzero inode to make the zeroing
observable. -/
def sampleStat : Stat :=
  { st_mode := 0o040755, st_ino := 42, st_dev := 1, st_nlink := 3,
    st_uid := 1000, st_gid := 1000, st_size := 4096,
    st_atime := 10, st_mtime := 20, st_ctime := 30 }

/-- 10 bytes of blob content for `README.md`. -/
def readmeBytes : List Nat := [103, 105, 116, 102, 117, 115, 101, 32, 105, 115]

/-- Root tree of `refs/heads/main`: a 10-byte `README.md` and a directory
`src` holding `main.py`. -/
def mainTree : GitObj := GitObj.tree
  [ (str "README.md", 0o100644, GitObj.blob readmeBytes),
    (str "src", 0o040000, GitObj.tree
      [(str "main.py", 0o100755, GitObj.blob [1, 2, 3])]) ]

/-- Root tree of `refs/tags/v1`. -/
def v1Tree : GitObj := GitObj.tree
  [ (str "a.txt", 0o100644, GitObj.blob [7]) ]

/-- The scenario repository of the spec: references `/heads/main` and
`/tags/v1`. -/
def sampleRepo : Repo :=
  { all_refs := [str "refs/heads/main", str "refs/tags/v1"],
    commits := [(str "refs/heads/main", mainTree), (str "refs/tags/v1", v1Tree)],
    repo_stat := sampleStat }

/-- A repository whose sole reference name begins with the hidden-entry
sentinel (a dot), exercising the missing hidden check in `readdir`. -/
def dotRepo : Repo :=
  { all_refs := [str "refs/.r/x"],
    commits := [],
    repo_stat := sampleStat }


/-! ## Helper lemmas -/

/-- Bridge between the executable `isPrefixOf` and the `<+:` relation. -/
theorem isPrefixOf_eq {a b : Str} : a.isPrefixOf b = true ↔ a <+: b :=
  List.isPrefixOf_iff_prefix


/-- Clearing the write bits really clears them: the result has no bit in
common with `0o222`. -/
theorem clearWrite_and_222 (m : Nat) : clearWrite m &&& 0o222 = 0 := by
  apply Nat.eq_of_testBit_eq
  intro i
  simp only [clearWrite, Nat.testBit_and, Nat.testBit_xor, Nat.zero_testBit]
  cases m.testBit i <;> cases (0o222 : Nat).testBit i <;> rfl

/-- Clearing the write bits leaves the directory bit untouched. -/
theorem clearWrite_and_dir (m : Nat) : clearWrite m &&& S_IFDIR = m &&& S_IFDIR := by
  apply Nat.eq_of_testBit_eq
  intro i
  have hdisj : (0o222 : Nat).testBit i = true → (S_IFDIR : Nat).testBit i = false := by
    have h0 : ((0o222 : Nat) &&& S_IFDIR) = 0 := by decide
    have h1 := congrArg (fun n => n.testBit i) h0
    simpa [Nat.testBit_and, Nat.zero_testBit] using h1
  simp only [clearWrite, Nat.testBit_and, Nat.testBit_xor]
  cases hm : m.testBit i <;> cases hk : (0o222 : Nat).testBit i <;>
    cases hd : (S_IFDIR : Nat).testBit i <;> simp_all

/-- `copy_stat` zeroes the inode. -/
theorem copy_stat_st_ino (st : Stat) (a b : Option Nat) :
    (copy_stat st a b).st_ino = 0 := rfl

/-- The mode of a `copy_stat` result is the (possibly overridden) mode with
write bits cleared. -/
theorem copy_stat_st_mode (st : Stat) (a b : Option Nat) :
    (copy_stat st a b).st_mode = clearWrite (a.getD st.st_mode) := rfl

/-- On a duplicate-free list containing `r`, filtering for `r` yields
exactly `[r]`. -/
theorem filter_eq_singleton_of_nodup (l : List Str) (r : Str)
    (hnd : l.Nodup) (hm : r ∈ l) : l.filter (fun a => a == r) = [r] := by
  induction l with
  | nil => cases hm
  | cons a t ih =>
    rcases List.nodup_cons.mp hnd with ⟨hat, hndt⟩
    rcases List.mem_cons.mp hm with h | h
    · rw [h]
      have ht : List.filter (fun x => x == a) t = [] := by
        refine List.filter_eq_nil_iff.mpr ?_
        intro b hb hbeq
        have hba : b = a := by simpa using hbeq
        exact hat (hba ▸ hb)
      simp [List.filter_cons, ht]
    · have hne : (a == r) = false := by
        refine beq_eq_false_iff_ne.mpr ?_
        intro he
        exact hat (he ▸ h)
      simp [List.filter_cons, hne, ih hndt h]

/-- `mapM` succeeds with the pointwise results when every element does. -/
theorem mapM_ok_of_forall {α β : Type} (f : α → Except PyErr β) (g : α → β) :
    ∀ l : List α, (∀ a ∈ l, f a = Except.ok (g a)) →
      l.mapM f = Except.ok (l.map g) := by
  intro l
  induction l with
  | nil => intro _; rfl
  | cons a t ih =>
    intro h
    have ha := h a (List.mem_cons_self a t)
    have ht := ih (fun b hb => h b (List.mem_cons_of_mem a hb))
    rw [List.mapM_cons, ha, ht]
    rfl

/-- `filterMap` is a plain `map` when the function is pointwise `some`. -/
theorem filterMap_eq_map_of_forall {α β : Type} (f : α → Option β) (g : α → β) :
    ∀ l : List α, (∀ a ∈ l, f a = some (g a)) →
      l.filterMap f = l.map g := by
  intro l
  induction l with
  | nil => intro _; rfl
  | cons a t ih =>
    intro h
    have ha := h a (List.mem_cons_self a t)
    have ht := ih (fun b hb => h b (List.mem_cons_of_mem a hb))
    simp [List.filterMap_cons, ha, ht]

/-- Every exposed reference name starts with a slash: it is a
fully-qualified name beginning `refs/` with the first 4 characters
stripped. -/
theorem refs_start_with_slash (repo : Repo) :
    ∀ r ∈ GitFS.refs repo, ∃ t, r = '/' :: t := by
  intro r hr
  rcases List.mem_map.mp hr with ⟨r0, hr0, hdrop⟩
  have hpre : (str "refs/").isPrefixOf r0 = true := (List.mem_filter.mp hr0).2
  rcases isPrefixOf_eq.mp hpre with ⟨t, ht⟩
  exact ⟨t, by rw [← hdrop, ← ht]; rfl⟩

/-- A non-hidden path that is a raw string prefix of some exposed
reference makes `get_child_refs` non-empty, so `getattr` returns the
directory template. -/
theorem getattr_namespace_node (repo : Repo) (path r : Str)
    (hh : (str "/.").isPrefixOf path = false)
    (hr : r ∈ GitFS.refs repo) (hp : path.isPrefixOf r = true) :
    GitFS.getattr repo path = Except.ok (copy_stat repo.repo_stat none none) := by
  have hmem : r ∈ GitFS.get_child_refs (GitFS.refs repo) path :=
    List.mem_filter.mpr ⟨hr, hp⟩
  unfold GitFS.getattr
  rw [hh]
  cases hcr : GitFS.get_child_refs (GitFS.refs repo) path with
  | nil => rw [hcr] at hmem; cases hmem
  | cons a t => simp

/-- A nonempty `takeWhile (· ≠ '/')` forces a cons head other than the
separator. -/
theorem takeWhile_ne_nil_head (u : Str)
    (hne : u.takeWhile (fun c => c ≠ '/') ≠ []) :
    ∃ c u2, u = c :: u2 ∧ c ≠ '/' := by
  cases u with
  | nil => simp at hne
  | cons c u2 =>
    by_cases hc : c = '/'
    · subst hc
      simp [List.takeWhile_cons] at hne
    · exact ⟨c, u2, rfl, hc⟩

/-- When the head segment is nonempty, `firstNonemptySeg` is exactly the
leading `takeWhile`. -/
theorem firstNonemptySeg_of_head_ne (u : Str)
    (hne : u.takeWhile (fun c => c ≠ '/') ≠ []) :
    firstNonemptySeg u = some (u.takeWhile (fun c => c ≠ '/')) := by
  rcases takeWhile_ne_nil_head u hne with ⟨c, u2, hu, hc⟩
  subst hu
  unfold firstNonemptySeg
  rw [List.dropWhile_cons]
  simp [hc]

/-- A leading separator is skipped by `firstNonemptySeg`. -/
theorem firstNonemptySeg_slash (u : Str)
    (hne : u.takeWhile (fun c => c ≠ '/') ≠ []) :
    firstNonemptySeg ('/' :: u) = some (u.takeWhile (fun c => c ≠ '/')) := by
  have hdw : List.dropWhile (fun c => decide (c = '/')) ('/' :: u)
      = List.dropWhile (fun c => decide (c = '/')) u := by
    simp [List.dropWhile_cons]
  have hsame : firstNonemptySeg ('/' :: u) = firstNonemptySeg u := by
    unfold firstNonemptySeg
    rw [hdw]
  rw [hsame]
  exact firstNonemptySeg_of_head_ne u hne

/-- Element `[1]` of a maxsplit-2 split of a string beginning with the
separator is the first segment after it. -/
theorem pyIndex_pySplitMax_slash (u : Str) :
    GitFS.pyIndex (GitFS.pySplitMax '/' 2 ('/' :: u)) 1
      = Except.ok (u.takeWhile (fun c => c ≠ '/')) := by
  have h2 : GitFS.pySplitMax '/' 2 ('/' :: u) = [] :: GitFS.pySplitMax '/' 1 u := rfl
  rw [h2]
  cases hpost : u.dropWhile (fun c => decide (c ≠ '/')) with
  | nil =>
    have h1 : GitFS.pySplitMax '/' 1 u = [u] := by
      unfold GitFS.pySplitMax
      rw [hpost]
    have htw : u.takeWhile (fun c => decide (c ≠ '/')) = u := by
      have happ := List.takeWhile_append_dropWhile (fun c => decide (c ≠ '/')) u
      rw [hpost, List.append_nil] at happ
      exact happ
    rw [h1]
    show Except.ok u = Except.ok (u.takeWhile (fun c => decide (c ≠ '/')))
    rw [htw]
  | cons c rest =>
    have h1 : GitFS.pySplitMax '/' 1 u
        = (u.takeWhile (fun c => decide (c ≠ '/'))) :: [rest] := by
      unfold GitFS.pySplitMax
      rw [hpost]
      rfl
    rw [h1]
    rfl

/-- Core of the C7 comparison: when the effective strip length `n` leaves
a leading separator followed by a nonempty segment on every matching
reference, and `firstNonemptySeg` after stripping the raw `path` prefix
agrees pointwise with the code's choice, `get_path_children` computes the
spec's `direct_children` set. -/
theorem get_path_children_core (refs : List Str) (path : Str) (n : Nat)
    (hnn : (if path = str "/" then 0 else path.length) = n)
    (hb : ∀ r ∈ refs, path.isPrefixOf r = true →
      ∃ u, r.drop n = '/' :: u ∧ u.takeWhile (fun c => c ≠ '/') ≠ [])
    (hsp : ∀ r ∈ refs, path.isPrefixOf r = true →
      firstNonemptySeg (r.drop path.length)
        = some (((r.drop n).tail).takeWhile (fun c => c ≠ '/'))) :
    GitFS.get_path_children refs path = Except.ok (specDirectChildren refs path) := by
  have hfix : ∀ r ∈ refs.filter (fun r => path.isPrefixOf r),
      ∃ u, r.drop n = '/' :: u ∧ u.takeWhile (fun c => c ≠ '/') ≠ [] := by
    intro r hr
    have hm := List.mem_filter.mp hr
    exact hb r hm.1 hm.2
  have hflt : (refs.filter (fun r => path.isPrefixOf r)).filter
        (fun r => decide (n < r.length))
      = refs.filter (fun r => path.isPrefixOf r) := by
    refine List.filter_eq_self.mpr ?_
    intro r hr
    rcases hfix r hr with ⟨u, hdrop, _⟩
    have hlen : n < r.length := by
      by_contra hle
      have hnil : r.drop n = [] := List.drop_eq_nil_of_le (by omega)
      rw [hnil] at hdrop
      cases hdrop
    simpa using hlen
  have hmap : (refs.filter (fun r => path.isPrefixOf r)).mapM
        (fun r => GitFS.pyIndex (GitFS.pySplitMax '/' 2 (r.drop n)) 1)
      = Except.ok ((refs.filter (fun r => path.isPrefixOf r)).map
          (fun r => ((r.drop n).tail).takeWhile (fun c => c ≠ '/'))) := by
    apply mapM_ok_of_forall
    intro r hr
    rcases hfix r hr with ⟨u, hdrop, _⟩
    rw [hdrop]
    exact pyIndex_pySplitMax_slash u
  have hspec2 : (refs.filter (fun r => path.isPrefixOf r)).filterMap
        (fun r => firstNonemptySeg (r.drop path.length))
      = (refs.filter (fun r => path.isPrefixOf r)).map
          (fun r => ((r.drop n).tail).takeWhile (fun c => c ≠ '/')) := by
    apply filterMap_eq_map_of_forall
    intro r hr
    have hm := List.mem_filter.mp hr
    exact hsp r hm.1 hm.2
  simp only [GitFS.get_path_children, GitFS.get_child_refs, hnn]
  rw [hflt, hmap]
  unfold specDirectChildren
  rw [hspec2]

/-! ## Claims -/

/-- C1 (code bug): the spec requires `open` with any flag other than
read-only to fail with access-denied, and a read-only open on a non-hidden
path to succeed.  The source tests `flags & os.O_RDONLY != os.O_RDONLY`,
but `O_RDONLY` is `0`, so the test is never true and the access-denied
branch is unreachable: an `O_WRONLY` open succeeds with handle `0` exactly
like a read-only open, contradicting the spec (and the program's own
description of itself as a read-only mount). -/
theorem open_wronly_succeeds :
    GitFS.open_op (str "/heads/main/README.md") O_WRONLY = Except.ok 0 ∧
    GitFS.open_op (str "/heads/main/README.md") O_RDONLY = Except.ok 0 := by
  decide

/-- C3 (code bug): the spec says every `find_entry` resolution failure —
missing intermediate segment, descent into a file, missing final segment —
surfaces as not-found.  The `try/except` in `git_tree_find` wraps only the
final lookup, so a missing intermediate segment raises an uncaught
`KeyError` and descending through a file more than one level before the
last segment raises an uncaught `TypeError`; only a missing final segment
(or a file at the second-to-last position) is converted to `ENOENT`. -/
theorem git_tree_find_uncaught_errors :
    git_tree_find (GitObj.tree []) (str "a/b") = Except.error PyErr.keyError ∧
    git_tree_find (GitObj.tree [(str "a", 0o100644, GitObj.blob [0])]) (str "a/b/c")
      = Except.error PyErr.typeError ∧
    git_tree_find (GitObj.tree []) (str "a") = Except.error PyErr.ENOENT ∧
    git_tree_find (GitObj.tree [(str "a", 0o100644, GitObj.blob [0])]) (str "a/b")
      = Except.error PyErr.ENOENT :=
  ⟨rfl, rfl, rfl, rfl⟩

/-- C2 counterexample: the claim says a snapshot file's reported mode is
the entry's stored mode used verbatim.  `README.md` is stored with mode
`0o100644`, but `copy_stat` applies its keyword overrides first and then
clears the write bits of the result, so `getattr` reports `0o100444`. -/
theorem getattr_file_mode_not_verbatim :
    (GitFS.getattr sampleRepo (str "/heads/main/README.md")).toOption.map Stat.st_mode
      = some 0o100444 ∧ (0o100444 : Nat) ≠ 0o100644 := by
  decide

/-- C2 (amended): for a path resolving to a snapshot file entry, `getattr`
reports size = blob byte length, and mode = the entry's stored mode with
the write bits cleared (the unconditional write-bit clearing of
`copy_stat` applies to the file entry's own mode as well, not only to the
directory template); the inode is zero. -/
theorem getattr_file_attributes (repo : Repo) (path ref : Str) (tree : GitObj)
    (entry : Entry) (d : List Nat)
    (hh : (str "/.").isPrefixOf path = false)
    (h0 : GitFS.get_child_refs (GitFS.refs repo) path = [])
    (h1 : GitFS.get_parent_ref (GitFS.refs repo) path = Except.ok ref)
    (h2 : GitFS.get_reference_commit repo ref = Except.ok tree)
    (h3 : git_tree_find tree (path.drop (ref.length + 1)) = Except.ok entry)
    (hmode : ¬ emode entry &&& S_IFDIR = S_IFDIR)
    (h4 : eobj entry = GitObj.blob d) :
    ∃ st, GitFS.getattr repo path = Except.ok st ∧
      st.st_size = d.length ∧
      st.st_mode = clearWrite (emode entry) ∧
      st.st_ino = 0 := by
  refine ⟨copy_stat repo.repo_stat (some (emode entry)) (some d.length), ?_, rfl, rfl, rfl⟩
  unfold GitFS.getattr
  simp only [hh, Bool.false_eq_true, if_false, h0, h1, h2, h3]
  simp [hmode, h4]

/-- Transitivity of `startswith` on character lists. -/
theorem isPrefixOf_trans {a b c : Str} (h1 : a.isPrefixOf b = true)
    (h2 : b.isPrefixOf c = true) : a.isPrefixOf c = true :=
  isPrefixOf_eq.mpr
    ((isPrefixOf_eq.mp h1).trans (isPrefixOf_eq.mp h2))

/-- When no exposed reference starts with the hidden sentinel, no
reference is a string extension of a hidden path. -/
theorem get_child_refs_nil_of_hidden (repo : Repo) (path : Str)
    (hh : (str "/.").isPrefixOf path = true)
    (hr : ∀ r ∈ GitFS.refs repo, (str "/.").isPrefixOf r = false) :
    GitFS.get_child_refs (GitFS.refs repo) path = [] := by
  refine List.filter_eq_nil_iff.mpr ?_
  intro r hrm hp
  have : (str "/.").isPrefixOf r = true := isPrefixOf_trans hh hp
  rw [hr r hrm] at this
  cases this

/-- When no exposed reference starts with the hidden sentinel, no
reference slash-prefixes a hidden path either. -/
theorem get_parent_ref_hidden (repo : Repo) (path : Str)
    (hh : (str "/.").isPrefixOf path = true)
    (hr : ∀ r ∈ GitFS.refs repo, (str "/.").isPrefixOf r = false) :
    GitFS.get_parent_ref (GitFS.refs repo) path = Except.error PyErr.ENOENT := by
  have hnil : (GitFS.refs repo).filter
      (fun r => (r ++ str "/").isPrefixOf path) = [] := by
    refine List.filter_eq_nil_iff.mpr ?_
    intro r hrm hp
    rcases refs_start_with_slash repo r hrm with ⟨t, ht⟩
    rcases isPrefixOf_eq.mp hh with ⟨p, hpath⟩
    have hpre : r ++ str "/" <+: path := isPrefixOf_eq.mp hp
    rw [ht, ← hpath] at hpre
    have hpre2 : t ++ str "/" <+: '.' :: p :=
      (List.cons_prefix_cons.mp hpre).2
    cases t with
    | nil =>
      have : '/' = '.' := (List.cons_prefix_cons.mp hpre2).1
      cases this
    | cons c t2 =>
      have hc : c = '.' := (List.cons_prefix_cons.mp hpre2).1
      have hpr : (str "/.").isPrefixOf r = true := by
        subst hc
        rw [ht]
        exact isPrefixOf_eq.mpr ⟨t2, rfl⟩
      rw [hr r hrm] at hpr
      cases hpr
  unfold GitFS.get_parent_ref
  rw [hnil]
  rfl

/-- C4 counterexample: the claim says all four operations fail fast with
not-found on any path whose first component begins with a dot.  `readdir`
performs no hidden check: with a reference named `/.r/x`, listing the
hidden path `/.r` succeeds and returns `["x"]` instead of failing. -/
theorem readdir_hidden_ref_listed :
    GitFS.readdir dotRepo (str "/.r") = Except.ok [str "x"] ∧
    GitFS.readdir dotRepo (str "/.r") ≠ Except.error PyErr.ENOENT := by
  decide

/-- C4 (amended): `getattr`, `open` and `read` fail fast with not-found on
every hidden (leading-dot) path; `readdir` has no hidden check, but still
fails with not-found on hidden paths provided no exposed reference name
begins with the hidden sentinel (through ordinary resolution, not fast). -/
theorem hidden_paths_not_found (repo : Repo) (path : Str)
    (flags size offset : Nat)
    (hh : (str "/.").isPrefixOf path = true)
    (hr : ∀ r ∈ GitFS.refs repo, (str "/.").isPrefixOf r = false) :
    GitFS.getattr repo path = Except.error PyErr.ENOENT ∧
    GitFS.open_op path flags = Except.error PyErr.ENOENT ∧
    GitFS.read repo path size offset = Except.error PyErr.ENOENT ∧
    GitFS.readdir repo path = Except.error PyErr.ENOENT := by
  have hcr := get_child_refs_nil_of_hidden repo path hh hr
  have hpr := get_parent_ref_hidden repo path hh hr
  have hpc : GitFS.get_path_children (GitFS.refs repo) path = Except.ok [] := by
    unfold GitFS.get_path_children
    rw [hcr]
    rfl
  have hnm : path ∉ GitFS.refs repo := by
    intro hmem
    rw [hr path hmem] at hh
    cases hh
  refine ⟨?_, ?_, ?_, ?_⟩
  · unfold GitFS.getattr; rw [hh]; rfl
  · unfold GitFS.open_op; rw [hh]; rfl
  · unfold GitFS.read; rw [hh]; rfl
  · unfold GitFS.readdir
    rw [hpc, if_neg hnm, hpr]

/-- C4 witness. -/
theorem hidden_paths_not_found_witness :
    GitFS.getattr sampleRepo (str "/.git") = Except.error PyErr.ENOENT ∧
    GitFS.open_op (str "/.git") 5 = Except.error PyErr.ENOENT ∧
    GitFS.read sampleRepo (str "/.git") 3 0 = Except.error PyErr.ENOENT ∧
    GitFS.readdir sampleRepo (str "/.git") = Except.error PyErr.ENOENT :=
  hidden_paths_not_found sampleRepo (str "/.git") 5 3 0 (by decide) (by decide)

/-- C7 counterexample: the claim says `direct_children(P)` takes, for each
reference with raw prefix `P`, the first remaining segment after stripping
`P` and splitting.  For the mid-segment prefix `/head` of `/heads/main`
the remainder is `s/main`, whose first remaining segment is `s`, but the
code takes element `[1]` of the split and returns `main`. -/
theorem direct_children_mid_segment_differs :
    GitFS.get_path_children [str "/heads/main"] (str "/head")
      = Except.ok [str "main"] ∧
    specDirectChildren [str "/heads/main"] (str "/head") = [str "s"] ∧
    (str "s") ∉ [str "main"] := by
  decide

/-- C7 (amended): `get_path_children(P)` agrees with the spec's
`direct_children` recipe whenever every reference matching the raw prefix
`P` continues it with a separator followed by a nonempty segment (in
particular at every segment boundary, and at the root, where the listing
is the set of first segments of all reference names); for a prefix ending
mid-segment the code returns the segment after the next separator, not
the first remaining segment. -/
theorem direct_children_at_boundary (refs : List Str) (path : Str)
    (hb : ∀ r ∈ refs, path.isPrefixOf r = true →
      ∃ u, r.drop (if path = str "/" then 0 else path.length) = '/' :: u ∧
        u.takeWhile (fun c => c ≠ '/') ≠ []) :
    GitFS.get_path_children refs path
      = Except.ok (specDirectChildren refs path) := by
  refine get_path_children_core refs path
    (if path = str "/" then 0 else path.length) rfl hb ?_
  intro r hr hp
  rcases hb r hr hp with ⟨u, hdrop, hne⟩
  by_cases hroot : path = str "/"
  · rw [if_pos hroot] at hdrop
    have hr0 : r = '/' :: u := by simpa using hdrop
    rw [if_pos hroot, hroot, hr0]
    show firstNonemptySeg u = some (u.takeWhile (fun c => decide (c ≠ '/')))
    exact firstNonemptySeg_of_head_ne u hne
  · rw [if_neg hroot] at hdrop ⊢
    rw [hdrop]
    show firstNonemptySeg ('/' :: u) = some (u.takeWhile (fun c => decide (c ≠ '/')))
    exact firstNonemptySeg_slash u hne

/-- C7 witness: the spec's root/`. `/heads` scenarios at segment
boundaries. -/
theorem direct_children_at_boundary_witness :
    GitFS.get_path_children [str "/heads/main", str "/tags/v1"] (str "/heads")
      = Except.ok (specDirectChildren
          [str "/heads/main", str "/tags/v1"] (str "/heads")) ∧
    GitFS.get_path_children [str "/heads/main", str "/tags/v1"] (str "/")
      = Except.ok (specDirectChildren
          [str "/heads/main", str "/tags/v1"] (str "/")) := by
  constructor
  · refine direct_children_at_boundary _ _ ?_
    intro r hr hp
    have hmem : r = str "/heads/main" ∨ r = str "/tags/v1" := by simpa using hr
    rcases hmem with h | h
    · subst h
      exact ⟨str "main", rfl, by decide⟩
    · subst h
      exact absurd hp (by decide)
  · refine direct_children_at_boundary _ _ ?_
    intro r hr hp
    have hmem : r = str "/heads/main" ∨ r = str "/tags/v1" := by simpa using hr
    rcases hmem with h | h
    · subst h
      exact ⟨str "heads/main", rfl, by decide⟩
    · subst h
      exact ⟨str "tags/v1", rfl, by decide⟩

/-- C5: `owning_reference` is `get_parent_ref`.  For every reference `r`
in a duplicate-free reference list and every relative path `x` whose full
path no other reference slash-prefixes, `get_parent_ref (r + "/" + x)`
returns `r`; with zero slash-terminated-prefix matches, or two or more,
it fails with not-found (no tie-breaking). -/
theorem owning_reference_spec :
    (∀ (refs : List Str) (r x : Str), refs.Nodup → r ∈ refs →
      (∀ r' ∈ refs, (r' ++ str "/").isPrefixOf (r ++ str "/" ++ x) = true → r' = r) →
      GitFS.get_parent_ref refs (r ++ str "/" ++ x) = Except.ok r) ∧
    (∀ (refs : List Str) (path : Str),
      refs.filter (fun rr => (rr ++ str "/").isPrefixOf path) = [] →
      GitFS.get_parent_ref refs path = Except.error PyErr.ENOENT) ∧
    (∀ (refs : List Str) (path : Str),
      2 ≤ (refs.filter (fun rr => (rr ++ str "/").isPrefixOf path)).length →
      GitFS.get_parent_ref refs path = Except.error PyErr.ENOENT) := by
  refine ⟨?_, ?_, ?_⟩
  · intro refs r x hnd hmem huniq
    have hpred : ∀ a ∈ refs,
        ((a ++ str "/").isPrefixOf (r ++ str "/" ++ x)) = (a == r) := by
      intro a ha
      cases hb : (a ++ str "/").isPrefixOf (r ++ str "/" ++ x) with
      | true => exact (beq_iff_eq.mpr (huniq a ha hb)).symm
      | false =>
        have hne : a ≠ r := by
          intro he
          subst he
          have hself : (a ++ str "/").isPrefixOf (a ++ str "/" ++ x) = true :=
            isPrefixOf_eq.mpr (List.prefix_append _ _)
          rw [hb] at hself
          cases hself
        exact (beq_eq_false_iff_ne.mpr hne).symm
    have hfil : refs.filter
        (fun a => (a ++ str "/").isPrefixOf (r ++ str "/" ++ x)) = [r] := by
      rw [List.filter_congr hpred]
      exact filter_eq_singleton_of_nodup refs r hnd hmem
    simp only [GitFS.get_parent_ref]
    rw [hfil]
    rfl
  · intro refs path hnil
    simp only [GitFS.get_parent_ref]
    rw [hnil]
    rfl
  · intro refs path hlen
    simp only [GitFS.get_parent_ref]
    have hne : (refs.filter
        (fun rr => (rr ++ str "/").isPrefixOf path)).length ≠ 1 := by omega
    rw [if_pos hne]

/-- C5 witness: ownership of `/heads/main/README.md`; zero matches on
`/nope`; two matches when `/a` and `/a/b` are both references. -/
theorem owning_reference_spec_witness :
    GitFS.get_parent_ref [str "/heads/main", str "/tags/v1"]
      (str "/heads/main" ++ str "/" ++ str "README.md")
      = Except.ok (str "/heads/main") ∧
    GitFS.get_parent_ref [str "/heads/main"] (str "/nope")
      = Except.error PyErr.ENOENT ∧
    GitFS.get_parent_ref [str "/a", str "/a/b"] (str "/a/b/c")
      = Except.error PyErr.ENOENT :=
  ⟨owning_reference_spec.1 [str "/heads/main", str "/tags/v1"]
      (str "/heads/main") (str "README.md") (by decide) (by decide) (by decide),
   owning_reference_spec.2.1 [str "/heads/main"] (str "/nope") (by decide),
   owning_reference_spec.2.2 [str "/a", str "/a/b"] (str "/a/b/c") (by decide)⟩

/-- C6: for a path resolving to a file entry with blob content `d`, `read`
returns the byte range `[offset, offset + size)` clipped to the blob
length; reading the whole blob from offset 0 returns it exactly; any
offset past the end yields an empty result, not an error. -/
theorem read_clipped (repo : Repo) (path ref : Str) (tree : GitObj)
    (entry : Entry) (d : List Nat)
    (hh : (str "/.").isPrefixOf path = false)
    (h1 : GitFS.get_parent_ref (GitFS.refs repo) path = Except.ok ref)
    (h2 : GitFS.get_reference_commit repo ref = Except.ok tree)
    (h3 : git_tree_find tree (path.drop (ref.length + 1)) = Except.ok entry)
    (h4 : eobj entry = GitObj.blob d) :
    (∀ size offset, GitFS.read repo path size offset
        = Except.ok ((d.drop offset).take size)) ∧
    GitFS.read repo path d.length 0 = Except.ok d ∧
    (∀ size offset, d.length < offset →
        GitFS.read repo path size offset = Except.ok []) := by
  have key : ∀ size offset, GitFS.read repo path size offset
      = Except.ok ((d.drop offset).take size) := by
    intro size offset
    unfold GitFS.read
    simp only [hh, Bool.false_eq_true, if_false, h1, h2, h3, h4]
    by_cases hc : offset = 0 ∧ d.length ≤ size
    · rw [if_pos hc]
      rcases hc with ⟨ho, hl⟩
      subst ho
      rw [List.drop_zero, List.take_of_length_le hl]
    · rw [if_neg hc]
  refine ⟨key, ?_, ?_⟩
  · rw [key d.length 0, List.drop_zero, List.take_length]
  · intro size offset hlt
    rw [key size offset, List.drop_eq_nil_of_le (Nat.le_of_lt hlt), List.take_nil]

/-- C6 witness: a clipped middle read, the whole-blob round trip, and a
past-the-end read of the 10-byte `README.md`. -/
theorem read_clipped_witness :
    GitFS.read sampleRepo (str "/heads/main/README.md") 4 8
      = Except.ok ((readmeBytes.drop 8).take 4) ∧
    GitFS.read sampleRepo (str "/heads/main/README.md") readmeBytes.length 0
      = Except.ok readmeBytes ∧
    GitFS.read sampleRepo (str "/heads/main/README.md") 1 11 = Except.ok [] := by
  have h := read_clipped sampleRepo (str "/heads/main/README.md") (str "/heads/main")
    mainTree (str "README.md", 0o100644, GitObj.blob readmeBytes) readmeBytes
    rfl rfl rfl rfl rfl
  exact ⟨h.1 4 8, h.2.1, h.2.2 1 11 (by decide)⟩

/-- C9: when a path resolves through `owning_reference` and `find_entry`
to an entry, `readdir` returns an empty listing for a file entry (no
error), and the names of the subtree's entries for a directory entry. -/
theorem readdir_entry (repo : Repo) (path ref : Str) (tree : GitObj) (entry : Entry)
    (h0 : GitFS.get_path_children (GitFS.refs repo) path = Except.ok [])
    (hnm : path ∉ GitFS.refs repo)
    (h1 : GitFS.get_parent_ref (GitFS.refs repo) path = Except.ok ref)
    (h2 : GitFS.get_reference_commit repo ref = Except.ok tree)
    (h3 : git_tree_find tree (path.drop (ref.length + 1)) = Except.ok entry) :
    (¬ emode entry &&& S_IFDIR = S_IFDIR → GitFS.readdir repo path = Except.ok []) ∧
    (∀ es, eobj entry = GitObj.tree es → emode entry &&& S_IFDIR = S_IFDIR →
      GitFS.readdir repo path = Except.ok (es.map ename)) := by
  constructor
  · intro hmode
    unfold GitFS.readdir
    simp only [h0, h1, h2, h3, if_neg hnm]
    rw [if_neg hmode]
  · intro es hes hmode
    unfold GitFS.readdir
    simp only [h0, h1, h2, h3, if_neg hnm]
    rw [if_pos hmode, hes]
    rfl

/-- C9 witness: listing the file `/heads/main/README.md` yields an empty
listing; listing the directory `/heads/main/src` yields its entry name. -/
theorem readdir_entry_witness :
    GitFS.readdir sampleRepo (str "/heads/main/README.md") = Except.ok [] ∧
    GitFS.readdir sampleRepo (str "/heads/main/src")
      = Except.ok [str "main.py"] := by
  have hf := readdir_entry sampleRepo (str "/heads/main/README.md")
    (str "/heads/main") mainTree
    (str "README.md", 0o100644, GitObj.blob readmeBytes)
    rfl (by decide) rfl rfl rfl
  have hd := readdir_entry sampleRepo (str "/heads/main/src")
    (str "/heads/main") mainTree
    (str "src", 0o040000, GitObj.tree [(str "main.py", 0o100755, GitObj.blob [1, 2, 3])])
    rfl (by decide) rfl rfl rfl
  exact ⟨hf.1 (by decide),
    hd.2 [(str "main.py", 0o100755, GitObj.blob [1, 2, 3])] rfl (by decide)⟩

/-- Every successful `getattr` result is an image of `copy_stat` applied
to the repository storage stat. -/
theorem getattr_ok_is_copy_stat (repo : Repo) (path : Str) (st : Stat)
    (h : GitFS.getattr repo path = Except.ok st) :
    ∃ a b, st = copy_stat repo.repo_stat a b := by
  simp only [GitFS.getattr] at h
  split at h
  · exact Except.noConfusion h
  split at h
  · exact ⟨none, none, (Except.ok.inj h).symm⟩
  split at h
  · exact Except.noConfusion h
  split at h
  · exact Except.noConfusion h
  split at h
  · exact Except.noConfusion h
  split at h
  · exact ⟨none, none, (Except.ok.inj h).symm⟩
  split at h
  · exact Except.noConfusion h
  · exact ⟨some _, some _, (Except.ok.inj h).symm⟩

/-- C10: a non-hidden path that is a raw string prefix of at least one
exposed reference name — including one ending mid-segment, like `/head`
when `/heads/main` exists — makes `get_child_refs` non-empty, so
`getattr` succeeds with the directory template instead of failing
not-found. -/
theorem getattr_raw_prefix_succeeds (repo : Repo) (path r : Str)
    (hh : (str "/.").isPrefixOf path = false)
    (hr : r ∈ GitFS.refs repo) (hp : path.isPrefixOf r = true) :
    GitFS.getattr repo path = Except.ok (copy_stat repo.repo_stat none none) :=
  getattr_namespace_node repo path r hh hr hp

/-- C10 witness: `/head` is a mid-segment prefix of `/heads/main`. -/
theorem getattr_raw_prefix_succeeds_witness :
    GitFS.getattr sampleRepo (str "/head")
      = Except.ok (copy_stat sampleRepo.repo_stat none none) :=
  getattr_raw_prefix_succeeds sampleRepo (str "/head") (str "/heads/main")
    (by decide) (by decide) (by decide)

/-- C8: every attribute record returned by `getattr` has all write
permission bits cleared and inode zero; and `getattr` on any
namespace-ancestor path or on a reference itself (any non-hidden path
that is a prefix of some reference — a reference is a prefix of itself)
reports a directory mode, given that the repository storage path is a
directory. -/
theorem getattr_invariants (repo : Repo) :
    (∀ path st, GitFS.getattr repo path = Except.ok st →
      st.st_mode &&& 0o222 = 0 ∧ st.st_ino = 0) ∧
    (∀ path r, (str "/.").isPrefixOf path = false →
      r ∈ GitFS.refs repo → path.isPrefixOf r = true →
      repo.repo_stat.st_mode &&& S_IFDIR = S_IFDIR →
      ∃ st, GitFS.getattr repo path = Except.ok st ∧
        st.st_mode &&& S_IFDIR = S_IFDIR) := by
  constructor
  · intro path st h
    rcases getattr_ok_is_copy_stat repo path st h with ⟨a, b, hst⟩
    rw [hst, copy_stat_st_mode, copy_stat_st_ino]
    exact ⟨clearWrite_and_222 _, rfl⟩
  · intro path r hh hr hp hdir
    refine ⟨copy_stat repo.repo_stat none none,
      getattr_namespace_node repo path r hh hr hp, ?_⟩
    rw [copy_stat_st_mode]
    show clearWrite repo.repo_stat.st_mode &&& S_IFDIR = S_IFDIR
    rw [clearWrite_and_dir]
    exact hdir

/-- C8 witness. -/
theorem getattr_invariants_witness :
    ((copy_stat sampleStat (some 0o100644) (some 10)).st_mode &&& 0o222 = 0 ∧
      (copy_stat sampleStat (some 0o100644) (some 10)).st_ino = 0) ∧
    (∃ st, GitFS.getattr sampleRepo (str "/tags") = Except.ok st ∧
      st.st_mode &&& S_IFDIR = S_IFDIR) :=
  ⟨(getattr_invariants sampleRepo).1 (str "/heads/main/README.md")
      (copy_stat sampleStat (some 0o100644) (some 10)) (by decide),
   (getattr_invariants sampleRepo).2 (str "/tags") (str "/tags/v1")
      (by decide) (by decide) (by decide) (by decide)⟩

/-- C2 witness. -/
theorem getattr_file_attributes_witness :
    ∃ st, GitFS.getattr sampleRepo (str "/heads/main/README.md") = Except.ok st ∧
      st.st_size = ([7] : List Nat).length + 9 ∧
      st.st_mode = clearWrite 0o100644 ∧
      st.st_ino = 0 := by
  have h := getattr_file_attributes sampleRepo (str "/heads/main/README.md")
    (str "/heads/main") mainTree (str "README.md", 0o100644, GitObj.blob readmeBytes)
    readmeBytes rfl (by decide) (by decide) rfl rfl (by decide) rfl
  simpa using h
